import Mathlib

/-!
Shallow embedding of the PyPI crawler (`all_package_7.py`, class `PyPICrawler`)
and verification of its specification claims.

Network and feed access are modelled as oracle functions supplied to the
embedded operations; the output directory is modelled as an association list
from filename to file content.
-/

namespace PyPICrawler

/-- A file-descriptor record of one release, as consumed by the crawler:
`filename`, `url` (the download URL) and `upload_time_iso_8601`. -/
structure FileInfo where
  filename : String
  url : String
  upload_time_iso_8601 : String
  deriving Repr, DecidableEq

/-- The slice of the PyPI JSON metadata document that the crawler consumes:
`info.version` (the current version string) and the `releases` mapping from
version strings to ordered file-record lists. -/
structure PackageInfo where
  version : String
  releases : List (String × List FileInfo)
  deriving Repr, DecidableEq

/-- Dictionary lookup `releases[v]` on the releases mapping (first matching
key; Python dict keys are unique). `none` models a missing key. -/
def lookupRelease (releases : List (String × List FileInfo)) (v : String) :
    Option (List FileInfo) :=
  (releases.find? (fun vr => vr.1 = v)).map (fun vr => vr.2)

/-- A Python `datetime` value: wall-clock fields plus an optional fixed UTC
offset in minutes (`none` models a naive datetime, `some off` models
`tzinfo = timezone(timedelta(minutes = off))`). -/
structure PyDateTime where
  year : Nat
  month : Nat
  day : Nat
  hour : Nat
  minute : Nat
  second : Nat
  microsecond : Nat
  tzOffsetMinutes : Option Int
  deriving Repr, DecidableEq

/-- Gregorian leap-year test, as in Python's `calendar.isleap`. -/
def isLeapYear (y : Nat) : Bool :=
  (y % 4 == 0 && y % 100 != 0) || y % 400 == 0

/-- Number of days in a month, used by the `datetime` constructor's range
validation. -/
def daysInMonth (y m : Nat) : Nat :=
  if m == 2 then (if isLeapYear y then 29 else 28)
  else if m == 4 || m == 6 || m == 9 || m == 11 then 30
  else 31

/-- Range validation of a fixed-offset tzinfo: `timezone` requires the offset
to be strictly between -24 and +24 hours. -/
def tzValid : Option Int → Bool
  | none => true
  | some off => decide (-1439 ≤ off) && decide (off ≤ 1439)

/-- The `datetime` constructor's range validation: `none` models a raised
`ValueError`. -/
def mkDateTime (year month day hour minute second microsecond : Nat)
    (tz : Option Int) : Option PyDateTime :=
  if 1 ≤ year ∧ year ≤ 9999 ∧ 1 ≤ month ∧ month ≤ 12 ∧
     1 ≤ day ∧ day ≤ daysInMonth year month ∧
     hour ≤ 23 ∧ minute ≤ 59 ∧ second ≤ 59 ∧ microsecond ≤ 999999 ∧
     tzValid tz = true
  then some ⟨year, month, day, hour, minute, second, microsecond, tz⟩
  else none

/-- Numeric value of a decimal digit character. -/
def digitVal (c : Char) : Nat := c.toNat - 48

/-- Parse exactly two decimal digits. -/
def parse2 : List Char → Option (Nat × List Char)
  | a :: b :: rest =>
    if a.isDigit && b.isDigit then some (digitVal a * 10 + digitVal b, rest)
    else none
  | _ => none

/-- Parse exactly four decimal digits. -/
def parse4 : List Char → Option (Nat × List Char)
  | a :: b :: c :: d :: rest =>
    if a.isDigit && b.isDigit && c.isDigit && d.isDigit then
      some (((digitVal a * 10 + digitVal b) * 10 + digitVal c) * 10 + digitVal d, rest)
    else none
  | _ => none

/-- Consume one expected character. -/
def expectChar (ch : Char) : List Char → Option (List Char)
  | c :: rest => if c = ch then some rest else none
  | [] => none

/-- Split off the leading run of decimal digits. -/
def takeDigits : List Char → List Char × List Char
  | [] => ([], [])
  | c :: cs =>
    if c.isDigit then
      let p := takeDigits cs
      (c :: p.1, p.2)
    else ([], c :: cs)

/-- Decimal value of a digit list. -/
def digitsToNat (ds : List Char) : Nat :=
  ds.foldl (fun n c => n * 10 + digitVal c) 0

/-- Fractional-second component: `fromisoformat` requires exactly 3 or 6
digits after the dot; the result is in microseconds. -/
def parseFrac (cs : List Char) : Option (Nat × List Char) :=
  let p := takeDigits cs
  if p.1.length = 3 then some (digitsToNat p.1 * 1000, p.2)
  else if p.1.length = 6 then some (digitsToNat p.1, p.2)
  else none

/-- Time-of-day component `HH[:MM[:SS[.fff[fff]]]]` of an ISO string, as
accepted by `datetime.fromisoformat`. -/
def parseTimePart (cs : List Char) :
    Option (Nat × Nat × Nat × Nat × List Char) := do
  let (hh, cs) ← parse2 cs
  match expectChar ':' cs with
  | none => some (hh, 0, 0, 0, cs)
  | some cs => do
    let (mm, cs) ← parse2 cs
    match expectChar ':' cs with
    | none => some (hh, mm, 0, 0, cs)
    | some cs => do
      let (ss, cs) ← parse2 cs
      match expectChar '.' cs with
      | none => some (hh, mm, ss, 0, cs)
      | some cs => do
        let (us, cs) ← parseFrac cs
        some (hh, mm, ss, us, cs)

/-- Optional fixed UTC offset `±HH:MM` at the end of an ISO string; the
result is the offset in minutes. -/
def parseTz (cs : List Char) : Option (Option Int × List Char) :=
  match cs with
  | [] => some (none, [])
  | c :: rest =>
    if c = '+' || c = '-' then do
      let (hh, rest) ← parse2 rest
      let rest ← expectChar ':' rest
      let (mm, rest) ← parse2 rest
      let total : Int := (hh * 60 + mm : Nat)
      some (some (if c = '-' then -total else total), rest)
    else none

/-- Model of `datetime.fromisoformat` on the character list of the input:
`YYYY-MM-DD`, optionally followed by a single separator character, a
time-of-day part and a fixed `±HH:MM` offset. `none` models a raised
`ValueError`. -/
def fromisoformatChars (cs : List Char) : Option PyDateTime := do
  let (y, cs) ← parse4 cs
  let cs ← expectChar '-' cs
  let (mo, cs) ← parse2 cs
  let cs ← expectChar '-' cs
  let (d, cs) ← parse2 cs
  match cs with
  | [] => mkDateTime y mo d 0 0 0 0 none
  | _sep :: cs => do
    let (h, mi, s, us, cs) ← parseTimePart cs
    let (tz, cs) ← parseTz cs
    match cs with
    | [] => mkDateTime y mo d h mi s us tz
    | _ => none

/-- Model of `datetime.fromisoformat` on strings. -/
def fromisoformat (s : String) : Option PyDateTime :=
  fromisoformatChars s.data

/-- Character-level model of `upload_time.replace(chr(90), chr(43) + "00:00")`,
i.e. Python `str.replace` of every occurrence of the single character `Z` by
the six characters `+00:00`. -/
def replaceZchars : List Char → List Char
  | [] => []
  | c :: cs =>
    if c = 'Z' then '+' :: '0' :: '0' :: ':' :: '0' :: '0' :: replaceZchars cs
    else c :: replaceZchars cs

/-- String-level model of `upload_time.replace` of `Z` by `+00:00`. -/
def replaceZ (s : String) : String :=
  ⟨replaceZchars s.data⟩

/-- Comparison of the wall-clock fields of two datetimes, lexicographically.
The crawler only ever compares two datetimes carrying the identical `tzinfo`
(the cutoff is built with `tzinfo=upload_date.tzinfo`), so the UTC offsets
cancel and Python's `>=` on datetimes reduces to this wall-clock comparison. -/
def dtCompare (a b : PyDateTime) : Ordering :=
  (compare a.year b.year).then <|
  (compare a.month b.month).then <|
  (compare a.day b.day).then <|
  (compare a.hour b.hour).then <|
  (compare a.minute b.minute).then <|
  (compare a.second b.second).then <|
  compare a.microsecond b.microsecond

/-- Python `a >= b` on two datetimes with identical `tzinfo`. -/
def dtGe (a b : PyDateTime) : Bool :=
  dtCompare a b != Ordering.lt

/-- Exception classes that the embedded code can raise. -/
inductive Exc where
  | requestException
  | keyError
  | valueError
  | indexError
  deriving Repr, DecidableEq

/-- Wrapper around `fromisoformat` raising `ValueError` on parse failure,
as `datetime.fromisoformat` does. -/
def fromisoformatE (s : String) : Except Exc PyDateTime :=
  match fromisoformat s with
  | some d => Except.ok d
  | none => Except.error Exc.valueError

/-- The `try`-block body of `is_updated_since_july_2025`: look up the current
version in `releases`; if present with a non-empty file list, parse the first
file's `upload_time_iso_8601` (after replacing `Z` by `+00:00`) and compare it
against `datetime(2025, 7, 1, tzinfo=upload_date.tzinfo)`; otherwise fall
through to `return False`. The only exception the body can raise is the
`ValueError` of a failed timestamp parse. -/
def is_updated_body (package_info : PackageInfo) : Except Exc Bool :=
  match lookupRelease package_info.releases package_info.version with
  | none => Except.ok false
  | some release_files =>
    match release_files with
    | [] => Except.ok false
    | f :: _ =>
      match fromisoformatE (replaceZ f.upload_time_iso_8601) with
      | Except.error e => Except.error e
      | Except.ok upload_date =>
        Except.ok (dtGe upload_date
          ⟨2025, 7, 1, 0, 0, 0, 0, upload_date.tzOffsetMinutes⟩)

/-- The `except (KeyError, ValueError, IndexError)` clause of
`is_updated_since_july_2025`: those three classes are caught (log a warning,
fall through to `return False`); any other exception would propagate. -/
def catchKVIdx (r : Except Exc Bool) : Except Exc Bool :=
  match r with
  | Except.error Exc.keyError => Except.ok false
  | Except.error Exc.valueError => Except.ok false
  | Except.error Exc.indexError => Except.ok false
  | other => other

/-- `is_updated_since_july_2025` as it behaves inside the exception monad. -/
def is_updated_since_july_2025E (package_info : PackageInfo) : Except Exc Bool :=
  catchKVIdx (is_updated_body package_info)

/-- `is_updated_since_july_2025` as a boolean function (its body never lets
an exception escape, see `is_updated_E_ok`). -/
def is_updated_since_july_2025 (package_info : PackageInfo) : Bool :=
  match is_updated_since_july_2025E package_info with
  | Except.ok b => b
  | Except.error _ => false

/-- `get_package_info`: issue `GET https://pypi.org/pypi/NAME/json` with a
10-second timeout, `raise_for_status`, and decode the JSON body. The `fetch`
oracle models this whole exchange; its error models a raised
`requests.RequestException` (transport failure, non-2xx status, or — with
requests ≥ 2.27 — a JSON decode failure), which the function catches, logs
and turns into `None`. -/
def get_package_info (fetch : String → Except Unit PackageInfo)
    (package_name : String) : Option PackageInfo :=
  match fetch package_name with
  | Except.ok info => some info
  | Except.error _ => none

/-- Does a file of this name exist in the output directory (`os.path.exists`
on `os.path.join(download_dir, filename)`)? -/
def fsExists (fs : List (String × String)) (filename : String) : Bool :=
  (fs.find? (fun p => p.1 = filename)).isSome

/-- Write the response payload as the file's binary content
(`open(file_path, chr(39) ++ wb)` semantics: an existing file of the same
name would be overwritten). -/
def fsWrite (fs : List (String × String)) (filename content : String) :
    List (String × String) :=
  (filename, content) :: fs.filter (fun p => p.1 ≠ filename)

/-- Python `str.endswith` as used on filenames. -/
def strEndsWith (s suffixStr : String) : Bool :=
  List.isSuffixOf suffixStr.data s.data

/-- First record of the list whose filename ends with the given suffix:
the `for file_info in releases` search loop with `break`. -/
def findFileWithSuffix (suffixStr : String) (releases : List FileInfo) :
    Option FileInfo :=
  releases.find? (fun file_info => strEndsWith file_info.filename suffixStr)

/-- The artifact-selection step of `download_package`: the first `.tar.gz`
record if any, otherwise the first `.whl` record. -/
def select_tar_gz_file (releases : List FileInfo) : Option FileInfo :=
  match findFileWithSuffix ".tar.gz" releases with
  | some f => some f
  | none => findFileWithSuffix ".whl" releases

/-- Result of one `download_package` call: the returned boolean, the output
directory afterwards, and the download URLs actually requested. -/
structure DownloadResult where
  ok : Bool
  fs : List (String × String)
  requests : List String
  deriving Repr, DecidableEq

/-- `download_package`: look up `package_info.releases[version]` (a missing
key raises `KeyError`, swallowed by the bare `except` into `return False`),
select the first `.tar.gz` (else first `.whl`) record; with no match, log and
return `False`. With a match: if the file already exists, return `True`
without any request; otherwise `GET` the download URL (30-second timeout) —
a transport failure or non-2xx status raises, caught by the bare `except`
into `return False` — and on success write the payload and return `True`.
The `net` oracle maps a URL to the response payload or a raised request
error. -/
def download_package (net : String → Except Unit String)
    (fs : List (String × String)) (package_info : PackageInfo) :
    DownloadResult :=
  match lookupRelease package_info.releases package_info.version with
  | none => ⟨false, fs, []⟩
  | some releases =>
    match select_tar_gz_file releases with
    | none => ⟨false, fs, []⟩
    | some tar_gz_file =>
      if fsExists fs tar_gz_file.filename then ⟨true, fs, []⟩
      else
        match net tar_gz_file.url with
        | Except.error _ => ⟨false, fs, [tar_gz_file.url]⟩
        | Except.ok content =>
          ⟨true, fsWrite fs tar_gz_file.filename content, [tar_gz_file.url]⟩

/-- One `item` of the parsed RSS document. `title = none` models an item with
no `title` element (`item.find` returned `None`, so the item is skipped). -/
structure RssItem where
  title : Option String
  deriving Repr, DecidableEq

/-- Python `str.split()` with no arguments: split on runs of whitespace,
discarding empty pieces. The accumulator holds the current token reversed. -/
def pySplitAux : List Char → List Char → List String
  | [], tok => if tok.isEmpty then [] else [⟨tok.reverse⟩]
  | c :: cs, tok =>
    if c.isWhitespace then
      if tok.isEmpty then pySplitAux cs []
      else (⟨tok.reverse⟩ : String) :: pySplitAux cs []
    else pySplitAux cs (c :: tok)

/-- Python `str.split()` on a string. -/
def pySplit (s : String) : List String :=
  pySplitAux s.data []

/-- The item-collection loop of `get_recent_packages_from_rss`: for each item
with a `title` element, `title.text.split()[0]` is the package name — the
`[0]` indexing of an empty token list raises `IndexError` — and the name is
appended unless already collected. -/
def collectNames : List RssItem → List String → Except Exc (List String)
  | [], packages => Except.ok packages
  | item :: rest, packages =>
    match item.title with
    | none => collectNames rest packages
    | some t =>
      match pySplit t with
      | [] => Except.error Exc.indexError
      | package_name :: _ =>
        if package_name ∈ packages then collectNames rest packages
        else collectNames rest (packages ++ [package_name])

/-- `get_recent_packages_from_rss`: fetch `https://pypi.org/rss/updates.xml`
(10-second timeout) and parse it; the `rssFeed` oracle models the fetch plus
`ET.fromstring`, its error a raised request or XML-parse exception. Collect
deduplicated first-token names and return at most the first 100; the bare
`except Exception` turns any raised exception into `[]`. -/
def get_recent_packages_from_rss (rssFeed : Except Unit (List RssItem)) :
    List String :=
  match rssFeed with
  | Except.error _ => []
  | Except.ok items =>
    match collectNames items [] with
    | Except.error _ => []
    | Except.ok packages => packages.take 100

/-- Observable events of one crawl run: the per-candidate progress log line
that opens each loop iteration, the download attempt, and the fixed
`time.sleep(1)` pacing pause. -/
inductive Event where
  | progress (name : String)
  | downloadAttempt (name : String)
  | sleep
  deriving Repr, DecidableEq

/-- State threaded through the crawl loop. -/
structure CrawlState where
  fs : List (String × String)
  downloaded_count : Nat
  trace : List Event
  deriving Repr, DecidableEq

/-- One iteration of the `for package_name in package_list` loop: log
progress; fetch metadata, `continue` if absent; apply the recency filter,
`continue` if it rejects; otherwise attempt the download, count a success,
and `time.sleep(1)`. The two `continue` paths reach the next candidate
without executing the sleep. -/
def processOne (fetch : String → Except Unit PackageInfo)
    (net : String → Except Unit String) (s : CrawlState)
    (package_name : String) : Except Exc CrawlState :=
  let s0 : CrawlState := { s with trace := s.trace ++ [Event.progress package_name] }
  match get_package_info fetch package_name with
  | none => Except.ok s0
  | some package_info =>
    match is_updated_since_july_2025E package_info with
    | Except.error e => Except.error e
    | Except.ok false => Except.ok s0
    | Except.ok true =>
      let r := download_package net s0.fs package_info
      Except.ok
        { fs := r.fs,
          downloaded_count := s0.downloaded_count + (if r.ok then 1 else 0),
          trace := s0.trace ++ [Event.downloadAttempt package_name, Event.sleep] }

/-- The crawl loop over the whole candidate list. -/
def crawlLoop (fetch : String → Except Unit PackageInfo)
    (net : String → Except Unit String) :
    CrawlState → List String → Except Exc CrawlState
  | s, [] => Except.ok s
  | s, package_name :: rest =>
    match processOne fetch net s package_name with
    | Except.error e => Except.error e
    | Except.ok s2 => crawlLoop fetch net s2 rest

/-- Outcome of `crawl_and_download`: the early return on an empty candidate
list (no summary), or normal completion with the summary download count, the
final output directory and the event trace. -/
inductive CrawlOutcome where
  | emptyList
  | finished (downloaded_count : Nat) (fs : List (String × String))
      (trace : List Event)
  deriving Repr, DecidableEq

/-- `crawl_and_download`: when no explicit list is supplied, take the
feed-derived one; on an empty list log and return early; otherwise run the
loop and log the summary count. -/
def crawl_and_download (fetch : String → Except Unit PackageInfo)
    (net : String → Except Unit String)
    (rssFeed : Except Unit (List RssItem))
    (package_list : Option (List String))
    (fs : List (String × String)) : Except Exc CrawlOutcome :=
  let pl := match package_list with
    | none => get_recent_packages_from_rss rssFeed
    | some l => l
  match pl with
  | [] => Except.ok CrawlOutcome.emptyList
  | n :: rest =>
    match crawlLoop fetch net ⟨fs, 0, []⟩ (n :: rest) with
    | Except.error e => Except.error e
    | Except.ok s => Except.ok (CrawlOutcome.finished s.downloaded_count s.fs s.trace)

/-- Events generated by one candidate, determined by the metadata fetch and
the recency filter alone: a skipped candidate leaves only its progress line;
a candidate that reaches the download step adds the attempt and the pacing
sleep, whatever the download's outcome. -/
def candidateEvents (fetch : String → Except Unit PackageInfo)
    (package_name : String) : List Event :=
  match get_package_info fetch package_name with
  | none => [Event.progress package_name]
  | some package_info =>
    if is_updated_since_july_2025 package_info then
      [Event.progress package_name, Event.downloadAttempt package_name, Event.sleep]
    else [Event.progress package_name]

/-- Concatenated per-candidate events of a whole run. -/
def eventsFor (fetch : String → Except Unit PackageInfo) :
    List String → List Event
  | [] => []
  | n :: rest => candidateEvents fetch n ++ eventsFor fetch rest

/-- Output-directory and counter effect of one candidate. -/
def stepFsCount (fetch : String → Except Unit PackageInfo)
    (net : String → Except Unit String) (fs : List (String × String))
    (count : Nat) (package_name : String) : List (String × String) × Nat :=
  match get_package_info fetch package_name with
  | none => (fs, count)
  | some package_info =>
    if is_updated_since_july_2025 package_info then
      let r := download_package net fs package_info
      (r.fs, count + (if r.ok then 1 else 0))
    else (fs, count)

/-- Output-directory and counter effect of a whole run. -/
def runFsCount (fetch : String → Except Unit PackageInfo)
    (net : String → Except Unit String) :
    List String → List (String × String) × Nat → List (String × String) × Nat
  | [], st => st
  | n :: rest, st => runFsCount fetch net rest (stepFsCount fetch net st.1 st.2 n)

/-- Name of a progress event, used to read off the processed candidates. -/
def progressName : Event → Option String
  | Event.progress n => some n
  | _ => none

/-- The candidates a trace shows as processed, in order. -/
def processedNames (tr : List Event) : List String :=
  tr.filterMap progressName

/-- Spec-side reading of the artifact selection policy: `f` is the first
record of the list whose filename ends with the given suffix. -/
def firstWithSuffix (suffixStr : String) (releases : List FileInfo)
    (f : FileInfo) : Prop :=
  ∃ pre post, releases = pre ++ f :: post ∧
    strEndsWith f.filename suffixStr = true ∧
    ∀ g ∈ pre, strEndsWith g.filename suffixStr = false

/-- Spec-side deduplication by insertion order: the first occurrence of each
name wins. -/
def dedupKeepFirst : List String → List String
  | [] => []
  | x :: xs => x :: (dedupKeepFirst xs).filter (fun y => decide (y ≠ x))

/-- First whitespace-delimited token of each item title, in item order
(items without a title element contribute nothing). -/
def firstTokens (items : List RssItem) : List String :=
  items.filterMap (fun it => it.title.bind (fun t => (pySplit t).head?))

/-- Does the item's title text split into at least one token? (An item with
no title element is unproblematic: it is skipped.) -/
def titleHasToken (it : RssItem) : Bool :=
  match it.title with
  | none => true
  | some t => !(pySplit t).isEmpty

/-- Replace the upload timestamp of the first file record of a release
file list. -/
def setFirstFile (t : String) : List FileInfo → List FileInfo
  | [] => []
  | f :: rest => { f with upload_time_iso_8601 := t } :: rest

/-- A metadata document identical to `d` except that the upload timestamp of
the first file record of the current version is `t`. -/
def setFirstUploadTime (d : PackageInfo) (t : String) : PackageInfo :=
  { d with releases := d.releases.map (fun vr =>
      if vr.1 = d.version then (vr.1, setFirstFile t vr.2) else vr) }

/-- Sample source-archive record used by concrete witnesses. -/
def sampleTarGz : FileInfo :=
  ⟨"demo-2.0.tar.gz", "https://files.example/demo-2.0.tar.gz",
   "2025-07-15T00:00:00Z"⟩

/-- Sample wheel record used by concrete witnesses. -/
def sampleWhl : FileInfo :=
  ⟨"demo-2.0-py3-none-any.whl", "https://files.example/demo-2.0.whl",
   "2025-07-15T00:00:00Z"⟩

/-- Sample metadata document: the wheel is listed before the source archive,
so it also exercises the selection-order claim. -/
def sampleInfo : PackageInfo :=
  ⟨"2.0", [("2.0", [sampleWhl, sampleTarGz])]⟩

/-- Oracle on which every metadata fetch raises a request error. -/
def errFetch : String → Except Unit PackageInfo := fun _ => Except.error ()

/-- Oracle on which every artifact request raises a request error. -/
def errNet : String → Except Unit String := fun _ => Except.error ()

/-- Oracle on which every artifact request succeeds with a fixed payload. -/
def okNet : String → Except Unit String := fun _ => Except.ok "payload"

/-- Oracle on which every metadata fetch returns the sample document. -/
def okFetch : String → Except Unit PackageInfo := fun _ => Except.ok sampleInfo

/-- The feed items of the spec's worked feed-parsing example. -/
def rssExampleItems : List RssItem :=
  [⟨some "foo 1.2.3"⟩, ⟨some "bar 0.1"⟩, ⟨some "foo 1.3.0"⟩]

/-- A feed whose second item has a whitespace-only title, after a good one. -/
def rssBadItems : List RssItem :=
  [⟨some "foo 1.0"⟩, ⟨some "  "⟩]

/-- The body of the recency filter never lets an exception escape its
`except (KeyError, ValueError, IndexError)` clause: the only exception it can
raise is the `ValueError` of a failed timestamp parse, which is caught. -/
theorem catchKVIdx_body_ok (i : PackageInfo) :
    ∃ b, catchKVIdx (is_updated_body i) = Except.ok b := by
  unfold is_updated_body
  cases lookupRelease i.releases i.version with
  | none => exact ⟨false, rfl⟩
  | some release_files =>
    cases release_files with
    | nil => exact ⟨false, rfl⟩
    | cons f rest =>
      dsimp only [fromisoformatE]
      cases fromisoformat (replaceZ f.upload_time_iso_8601) with
      | none => exact ⟨false, rfl⟩
      | some upload_date => exact ⟨_, rfl⟩

/-- The monadic and the boolean views of the recency filter agree. -/
theorem is_updated_E_ok (i : PackageInfo) :
    is_updated_since_july_2025E i = Except.ok (is_updated_since_july_2025 i) := by
  obtain ⟨b, hb⟩ := catchKVIdx_body_ok i
  have hE : is_updated_since_july_2025E i = Except.ok b := hb
  rw [hE]
  unfold is_updated_since_july_2025
  rw [hE]

/-- `str.append` acts as list append on the character data. -/
theorem strData_append (a b : String) : (a ++ b).data = a.data ++ b.data := rfl

/-- The `Z`-to-`+00:00` replacement distributes over appending. -/
theorem replaceZchars_append (p q : List Char) :
    replaceZchars (p ++ q) = replaceZchars p ++ replaceZchars q := by
  induction p with
  | nil => rfl
  | cons c cs ih =>
    by_cases h : c = 'Z' <;> simp [replaceZchars, h, ih]

/-- A timestamp ending in a literal `Z` and the same timestamp ending in the
explicit `+00:00` offset are identical strings after the crawler's
`replace` normalization. -/
theorem replaceZ_trailing (p : String) :
    replaceZ (p ++ "Z") = replaceZ (p ++ "+00:00") := by
  unfold replaceZ
  rw [strData_append, strData_append, replaceZchars_append, replaceZchars_append]
  rfl

/-- Looking up the current version after editing its first file record
returns the edited file list. -/
theorem lookupRelease_map_set (t v : String)
    (rs : List (String × List FileInfo)) :
    lookupRelease
      (rs.map (fun vr => if vr.1 = v then (vr.1, setFirstFile t vr.2) else vr)) v =
      (lookupRelease rs v).map (setFirstFile t) := by
  induction rs with
  | nil => rfl
  | cons vr rest ih =>
    simp only [List.map_cons, lookupRelease]
    by_cases h : vr.1 = v
    · rw [if_pos h]
      rw [List.find?_cons_of_pos _ (by simp [h]),
        List.find?_cons_of_pos _ (by simp [h])]
      simp
    · rw [if_neg h]
      rw [List.find?_cons_of_neg _ (by simp [h]),
        List.find?_cons_of_neg _ (by simp [h])]
      simp only [lookupRelease] at ih
      exact ih

/-- The recency filter, written as the nested lookup-parse-compare chain of
its source body. -/
theorem is_updated_eq (d : PackageInfo) :
    is_updated_since_july_2025 d =
      match lookupRelease d.releases d.version with
      | none => false
      | some [] => false
      | some (f :: _) =>
        match fromisoformat (replaceZ f.upload_time_iso_8601) with
        | none => false
        | some upload_date =>
          dtGe upload_date ⟨2025, 7, 1, 0, 0, 0, 0, upload_date.tzOffsetMinutes⟩ := by
  unfold is_updated_since_july_2025 is_updated_since_july_2025E catchKVIdx
    is_updated_body fromisoformatE
  cases lookupRelease d.releases d.version with
  | none => rfl
  | some release_files =>
    cases release_files with
    | nil => rfl
    | cons f rest =>
      dsimp only
      cases fromisoformat (replaceZ f.upload_time_iso_8601) with
      | none => rfl
      | some upload_date => rfl

/-- The recency filter on a document whose first current-version file record
carries timestamp `t`, expressed by the timestamp alone. -/
theorem is_updated_setFirstUploadTime (d : PackageInfo) (t : String) :
    is_updated_since_july_2025 (setFirstUploadTime d t) =
      match lookupRelease d.releases d.version with
      | none => false
      | some [] => false
      | some (_ :: _) =>
        match fromisoformat (replaceZ t) with
        | none => false
        | some upload_date =>
          dtGe upload_date ⟨2025, 7, 1, 0, 0, 0, 0, upload_date.tzOffsetMinutes⟩ := by
  rw [is_updated_eq]
  have hl : lookupRelease (setFirstUploadTime d t).releases
      (setFirstUploadTime d t).version =
      (lookupRelease d.releases d.version).map (setFirstFile t) :=
    lookupRelease_map_set t d.version d.releases
  rw [hl]
  cases lookupRelease d.releases d.version with
  | none => rfl
  | some release_files =>
    cases release_files with
    | nil => rfl
    | cons f rest =>
      dsimp only [Option.map, setFirstFile]

/-- C1: for every package metadata document, the recency filter returns true
if and only if the current version is a key of the releases mapping, that
version's file list is non-empty, the first file record's
`upload_time_iso_8601` parses as an ISO-8601 instant (after the trailing-`Z`
normalization), and that instant is on or after 2025-07-01T00:00:00 carrying
the same timezone as the parsed instant; in every other case it returns
false. -/
theorem is_updated_iff (d : PackageInfo) :
    is_updated_since_july_2025 d = true ↔
      ∃ rf f rest upload_date,
        lookupRelease d.releases d.version = some rf ∧
        rf = f :: rest ∧
        fromisoformat (replaceZ f.upload_time_iso_8601) = some upload_date ∧
        dtGe upload_date ⟨2025, 7, 1, 0, 0, 0, 0, upload_date.tzOffsetMinutes⟩
          = true := by
  rw [is_updated_eq]
  cases h1 : lookupRelease d.releases d.version with
  | none => simp
  | some release_files =>
    cases release_files with
    | nil => simp
    | cons f rest =>
      cases h2 : fromisoformat (replaceZ f.upload_time_iso_8601) with
      | none => simp [h2]
      | some upload_date => simp [h2]

/-- Witness for C1: the sample document with a 2025-07-15 upload is accepted
by the filter, through the characterization's reverse direction. -/
theorem is_updated_iff_witness : is_updated_since_july_2025 sampleInfo = true :=
  (is_updated_iff sampleInfo).mpr
    ⟨[sampleWhl, sampleTarGz], sampleWhl, [sampleTarGz],
     ⟨2025, 7, 15, 0, 0, 0, 0, some 0⟩, by decide, rfl, by decide, by decide⟩

/-- C6: two metadata documents identical except that one first-file upload
timestamp ends in a literal `Z` and the other ends in the explicit `+00:00`
offset get the same boolean result from the recency filter. -/
theorem filter_Z_offset_agree (d : PackageInfo) (p : String) :
    is_updated_since_july_2025 (setFirstUploadTime d (p ++ "Z")) =
      is_updated_since_july_2025 (setFirstUploadTime d (p ++ "+00:00")) := by
  rw [is_updated_setFirstUploadTime, is_updated_setFirstUploadTime,
    replaceZ_trailing]

/-- Value of `download_package` when the current version is missing from the
releases mapping (the `KeyError` is swallowed into `return False`). -/
theorem download_eq_missing_version (net : String → Except Unit String)
    (fs : List (String × String)) (info : PackageInfo)
    (hrel : lookupRelease info.releases info.version = none) :
    download_package net fs info = ⟨false, fs, []⟩ := by
  unfold download_package
  rw [hrel]

/-- Value of `download_package` when no record matches either suffix. -/
theorem download_eq_no_match (net : String → Except Unit String)
    (fs : List (String × String)) (info : PackageInfo)
    (releases : List FileInfo)
    (hrel : lookupRelease info.releases info.version = some releases)
    (hsel : select_tar_gz_file releases = none) :
    download_package net fs info = ⟨false, fs, []⟩ := by
  unfold download_package
  rw [hrel]
  dsimp only
  rw [hsel]

/-- Value of `download_package` when the selected file already exists. -/
theorem download_eq_already_there (net : String → Except Unit String)
    (fs : List (String × String)) (info : PackageInfo)
    (releases : List FileInfo) (f : FileInfo)
    (hrel : lookupRelease info.releases info.version = some releases)
    (hsel : select_tar_gz_file releases = some f)
    (hex : fsExists fs f.filename = true) :
    download_package net fs info = ⟨true, fs, []⟩ := by
  unfold download_package
  rw [hrel]
  dsimp only
  rw [hsel]
  dsimp only
  rw [hex]
  simp

/-- Value of `download_package` when the artifact request raises. -/
theorem download_eq_net_error (net : String → Except Unit String)
    (fs : List (String × String)) (info : PackageInfo)
    (releases : List FileInfo) (f : FileInfo)
    (hrel : lookupRelease info.releases info.version = some releases)
    (hsel : select_tar_gz_file releases = some f)
    (hex : fsExists fs f.filename = false)
    (hnet : net f.url = Except.error ()) :
    download_package net fs info = ⟨false, fs, [f.url]⟩ := by
  unfold download_package
  rw [hrel]
  dsimp only
  rw [hsel]
  dsimp only
  rw [hex, hnet]
  simp

/-- Value of `download_package` when the artifact request succeeds. -/
theorem download_eq_net_ok (net : String → Except Unit String)
    (fs : List (String × String)) (info : PackageInfo)
    (releases : List FileInfo) (f : FileInfo) (content : String)
    (hrel : lookupRelease info.releases info.version = some releases)
    (hsel : select_tar_gz_file releases = some f)
    (hex : fsExists fs f.filename = false)
    (hnet : net f.url = Except.ok content) :
    download_package net fs info =
      ⟨true, fsWrite fs f.filename content, [f.url]⟩ := by
  unfold download_package
  rw [hrel]
  dsimp only
  rw [hsel]
  dsimp only
  rw [hex, hnet]
  simp

/-- A file just written is found by the existence check. -/
theorem fsExists_fsWrite (fs : List (String × String)) (n c : String) :
    fsExists (fsWrite fs n c) n = true := by
  simp [fsExists, fsWrite, List.find?]

/-- A successful `find?` returns the first element satisfying the
predicate. -/
theorem find?_first {α : Type} (p : α → Bool) (l : List α)
    (h : ∃ x ∈ l, p x = true) :
    ∃ f pre post, l.find? p = some f ∧ l = pre ++ f :: post ∧ p f = true ∧
      ∀ g ∈ pre, p g = false := by
  induction l with
  | nil => simp at h
  | cons a l ih =>
    cases hp : p a with
    | true =>
      exact ⟨a, [], l, by rw [List.find?_cons_of_pos _ hp], rfl, hp, by simp⟩
    | false =>
      have h2 : ∃ x ∈ l, p x = true := by
        obtain ⟨x, hx, hpx⟩ := h
        rcases List.mem_cons.mp hx with rfl | hx2
        · rw [hp] at hpx; cases hpx
        · exact ⟨x, hx2, hpx⟩
      obtain ⟨f, pre, post, hfind, heq, hpf, hpre⟩ := ih h2
      refine ⟨f, a :: pre, post, ?_, by rw [heq]; rfl, hpf, ?_⟩
      · rw [List.find?_cons_of_neg _ (by simp [hp])]
        exact hfind
      · intro g hg
        rcases List.mem_cons.mp hg with rfl | hg2
        · exact hp
        · exact hpre g hg2

/-- C2: the artifact selector chooses the first record whose filename ends in
`.tar.gz`; only when no record has that suffix does it choose the first
record whose filename ends in `.whl` — so with both present, `.tar.gz` wins
regardless of order — and with neither suffix present `download_package`
returns false without issuing any request or touching the output
directory. -/
theorem download_prefers_tar_gz (net : String → Except Unit String)
    (fs : List (String × String)) (info : PackageInfo)
    (releases : List FileInfo)
    (hrel : lookupRelease info.releases info.version = some releases) :
    ((∃ f ∈ releases, strEndsWith f.filename ".tar.gz" = true) →
      ∃ f, select_tar_gz_file releases = some f ∧
        firstWithSuffix ".tar.gz" releases f)
    ∧ ((∀ f ∈ releases, strEndsWith f.filename ".tar.gz" = false) →
      (∃ f ∈ releases, strEndsWith f.filename ".whl" = true) →
      ∃ f, select_tar_gz_file releases = some f ∧
        firstWithSuffix ".whl" releases f)
    ∧ ((∀ f ∈ releases, strEndsWith f.filename ".tar.gz" = false ∧
          strEndsWith f.filename ".whl" = false) →
      download_package net fs info = ⟨false, fs, []⟩) := by
  refine ⟨?_, ?_, ?_⟩
  · intro h
    obtain ⟨f, pre, post, hfind, heq, hpf, hpre⟩ := find?_first _ releases h
    refine ⟨f, ?_, pre, post, heq, hpf, hpre⟩
    unfold select_tar_gz_file findFileWithSuffix
    rw [hfind]
  · intro hno hwhl
    have hnone :
        releases.find? (fun fi => strEndsWith fi.filename ".tar.gz") = none :=
      List.find?_eq_none.mpr (fun x hx => by simp [hno x hx])
    obtain ⟨f, pre, post, hfind, heq, hpf, hpre⟩ := find?_first _ releases hwhl
    refine ⟨f, ?_, pre, post, heq, hpf, hpre⟩
    unfold select_tar_gz_file findFileWithSuffix
    rw [hnone]
    exact hfind
  · intro h
    have h1 :
        releases.find? (fun fi => strEndsWith fi.filename ".tar.gz") = none :=
      List.find?_eq_none.mpr (fun x hx => by simp [(h x hx).1])
    have h2 :
        releases.find? (fun fi => strEndsWith fi.filename ".whl") = none :=
      List.find?_eq_none.mpr (fun x hx => by simp [(h x hx).2])
    have hsel : select_tar_gz_file releases = none := by
      unfold select_tar_gz_file findFileWithSuffix
      rw [h1]
      exact h2
    exact download_eq_no_match net fs info releases hrel hsel

/-- Witness for C2: on the sample release list, where the wheel is listed
before the source archive, the selector still picks the `.tar.gz` record. -/
theorem download_prefers_tar_gz_witness :
    ∃ f, select_tar_gz_file [sampleWhl, sampleTarGz] = some f ∧
      firstWithSuffix ".tar.gz" [sampleWhl, sampleTarGz] f :=
  (download_prefers_tar_gz errNet [] sampleInfo [sampleWhl, sampleTarGz]
    (by decide)).1 ⟨sampleTarGz, by decide, by decide⟩

/-- C5: when a file with the selected record's filename already exists in
the output directory, `download_package` returns true with no request and an
unchanged directory; and after any successful run, a second run (under any
network behaviour) reports success, issues no request and leaves the
directory exactly as the first run left it. -/
theorem download_idempotent (net net2 : String → Except Unit String)
    (fs : List (String × String)) (info : PackageInfo) :
    (∀ releases f, lookupRelease info.releases info.version = some releases →
      select_tar_gz_file releases = some f →
      fsExists fs f.filename = true →
      download_package net fs info = ⟨true, fs, []⟩)
    ∧ ((download_package net fs info).ok = true →
      download_package net2 (download_package net fs info).fs info =
        ⟨true, (download_package net fs info).fs, []⟩) := by
  constructor
  · intro releases f hrel hsel hex
    exact download_eq_already_there net fs info releases f hrel hsel hex
  · intro hok
    cases hrel : lookupRelease info.releases info.version with
    | none =>
      rw [download_eq_missing_version net fs info hrel] at hok
      cases hok
    | some releases =>
      cases hsel : select_tar_gz_file releases with
      | none =>
        rw [download_eq_no_match net fs info releases hrel hsel] at hok
        cases hok
      | some f =>
        cases hex : fsExists fs f.filename with
        | true =>
          rw [download_eq_already_there net fs info releases f hrel hsel hex]
          exact download_eq_already_there net2 fs info releases f hrel hsel hex
        | false =>
          cases hnet : net f.url with
          | error e =>
            rw [download_eq_net_error net fs info releases f hrel hsel hex
              (by rw [hnet])] at hok
            cases hok
          | ok content =>
            rw [download_eq_net_ok net fs info releases f content hrel hsel hex
              hnet]
            exact download_eq_already_there net2
              (fsWrite fs f.filename content) info releases f hrel hsel
              (fsExists_fsWrite fs f.filename content)

/-- Witness for C5: with `demo-2.0.tar.gz` already on disk, the sample
download reports success, makes no request and leaves the directory
untouched. -/
theorem download_idempotent_witness :
    download_package errNet [("demo-2.0.tar.gz", "old")] sampleInfo =
      ⟨true, [("demo-2.0.tar.gz", "old")], []⟩ :=
  (download_idempotent errNet errNet [("demo-2.0.tar.gz", "old")]
    sampleInfo).1 [sampleWhl, sampleTarGz] sampleTarGz (by decide) (by decide)
    (by decide)

/-- C9: whenever `download_package` reports failure — in particular when the
metadata lookup fails before selection, or when the artifact request on the
selected record's URL raises — the output directory is returned unchanged;
no error path taken before the file-write step creates a file. -/
theorem download_error_paths (net : String → Except Unit String)
    (fs : List (String × String)) (info : PackageInfo) :
    ((download_package net fs info).ok = false →
      (download_package net fs info).fs = fs)
    ∧ (lookupRelease info.releases info.version = none →
      (download_package net fs info).ok = false)
    ∧ (∀ releases f, lookupRelease info.releases info.version = some releases →
      select_tar_gz_file releases = some f →
      fsExists fs f.filename = false →
      net f.url = Except.error () →
      download_package net fs info = ⟨false, fs, [f.url]⟩) := by
  refine ⟨?_, ?_, ?_⟩
  · intro hok
    cases hrel : lookupRelease info.releases info.version with
    | none => rw [download_eq_missing_version net fs info hrel]
    | some releases =>
      cases hsel : select_tar_gz_file releases with
      | none => rw [download_eq_no_match net fs info releases hrel hsel]
      | some f =>
        cases hex : fsExists fs f.filename with
        | true =>
          rw [download_eq_already_there net fs info releases f hrel hsel hex]
            at hok
          cases hok
        | false =>
          cases hnet : net f.url with
          | error e =>
            rw [download_eq_net_error net fs info releases f hrel hsel hex
              (by rw [hnet])]
          | ok content =>
            rw [download_eq_net_ok net fs info releases f content hrel hsel
              hex hnet] at hok
            cases hok
  · intro hrel
    rw [download_eq_missing_version net fs info hrel]
  · intro releases f hrel hsel hex hnet
    exact download_eq_net_error net fs info releases f hrel hsel hex hnet

/-- Witness for C9: with an empty output directory and a failing network, the
sample download returns false after requesting only the selected URL, and
creates no file. -/
theorem download_error_paths_witness :
    download_package errNet [] sampleInfo =
      ⟨false, [], [sampleTarGz.url]⟩ :=
  (download_error_paths errNet [] sampleInfo).2.2 [sampleWhl, sampleTarGz]
    sampleTarGz (by decide) (by decide) (by decide) rfl

/-- One loop iteration, split into its directory/counter effect and the
events it appends to the trace. -/
theorem processOne_eq (fetch : String → Except Unit PackageInfo)
    (net : String → Except Unit String) (s : CrawlState) (name : String) :
    processOne fetch net s name =
      Except.ok
        { fs := (stepFsCount fetch net s.fs s.downloaded_count name).1,
          downloaded_count :=
            (stepFsCount fetch net s.fs s.downloaded_count name).2,
          trace := s.trace ++ candidateEvents fetch name } := by
  unfold processOne stepFsCount candidateEvents
  cases get_package_info fetch name with
  | none => rfl
  | some info =>
    dsimp only
    rw [is_updated_E_ok info]
    cases is_updated_since_july_2025 info with
    | false => rfl
    | true => simp [List.append_assoc]

/-- The crawl loop runs to completion on every candidate list, accumulating
the per-candidate events in order. -/
theorem crawlLoop_eq (fetch : String → Except Unit PackageInfo)
    (net : String → Except Unit String) (pl : List String) :
    ∀ s : CrawlState,
      crawlLoop fetch net s pl =
        Except.ok
          { fs := (runFsCount fetch net pl (s.fs, s.downloaded_count)).1,
            downloaded_count :=
              (runFsCount fetch net pl (s.fs, s.downloaded_count)).2,
            trace := s.trace ++ eventsFor fetch pl } := by
  induction pl with
  | nil =>
    intro s
    simp [crawlLoop, runFsCount, eventsFor]
  | cons n rest ih =>
    intro s
    rw [show crawlLoop fetch net s (n :: rest) =
        (match processOne fetch net s n with
         | Except.error e => Except.error e
         | Except.ok s2 => crawlLoop fetch net s2 rest) from rfl]
    rw [processOne_eq]
    dsimp only
    rw [ih]
    simp [runFsCount, eventsFor, List.append_assoc]

/-- Each candidate's event block shows exactly one progress line, carrying
its name. -/
theorem processedNames_candidate (fetch : String → Except Unit PackageInfo)
    (name : String) :
    (candidateEvents fetch name).filterMap progressName = [name] := by
  unfold candidateEvents
  cases get_package_info fetch name with
  | none => rfl
  | some info =>
    dsimp only
    cases is_updated_since_july_2025 info with
    | false => rfl
    | true => rfl

/-- The trace of a run shows the candidates processed exactly in input
order. -/
theorem processedNames_eventsFor (fetch : String → Except Unit PackageInfo)
    (pl : List String) :
    processedNames (eventsFor fetch pl) = pl := by
  induction pl with
  | nil => rfl
  | cons n rest ih =>
    show (candidateEvents fetch n ++ eventsFor fetch rest).filterMap
      progressName = n :: rest
    rw [List.filterMap_append, processedNames_candidate]
    rw [show (eventsFor fetch rest).filterMap progressName = rest from ih]
    rfl

/-- With a non-empty explicit candidate list, the orchestrator finishes with
a summary count and the concatenated per-candidate trace. -/
theorem crawl_eq_finished (fetch : String → Except Unit PackageInfo)
    (net : String → Except Unit String) (rssFeed : Except Unit (List RssItem))
    (pl : List String) (fs : List (String × String)) (h : pl ≠ []) :
    crawl_and_download fetch net rssFeed (some pl) fs =
      Except.ok (CrawlOutcome.finished
        (runFsCount fetch net pl (fs, 0)).2
        (runFsCount fetch net pl (fs, 0)).1
        (eventsFor fetch pl)) := by
  cases pl with
  | nil => exact absurd rfl h
  | cons n rest =>
    unfold crawl_and_download
    dsimp only
    rw [crawlLoop_eq]
    simp

/-- A tokenizable title has a non-empty split. -/
theorem titleHasToken_some {it : RssItem} {t : String}
    (h : titleHasToken it = true) (ht : it.title = some t) :
    pySplit t ≠ [] := by
  unfold titleHasToken at h
  rw [ht] at h
  intro hnil
  simp [hnil] at h

/-- An item failing the token check has a present but tokenless title. -/
theorem titleHasToken_false {it : RssItem} (h : titleHasToken it = false) :
    ∃ t, it.title = some t ∧ pySplit t = [] := by
  unfold titleHasToken at h
  cases ht : it.title with
  | none => rw [ht] at h; cases h
  | some t =>
    rw [ht] at h
    dsimp only at h
    refine ⟨t, rfl, ?_⟩
    cases hs : pySplit t with
    | nil => rfl
    | cons a l => rw [hs] at h; simp at h

/-- The collection loop preserves freedom from duplicates. -/
theorem collectNames_nodup (items : List RssItem) :
    ∀ acc r, acc.Nodup → collectNames items acc = Except.ok r → r.Nodup := by
  induction items with
  | nil =>
    intro acc r hacc hr
    unfold collectNames at hr
    injection hr with h2
    rw [← h2]
    exact hacc
  | cons it rest ih =>
    intro acc r hacc hr
    unfold collectNames at hr
    cases htitle : it.title with
    | none =>
      rw [htitle] at hr
      exact ih acc r hacc hr
    | some t =>
      rw [htitle] at hr
      dsimp only at hr
      cases hsplit : pySplit t with
      | nil => rw [hsplit] at hr; cases hr
      | cons name tks =>
        rw [hsplit] at hr
        dsimp only at hr
        by_cases hmem : name ∈ acc
        · rw [if_pos hmem] at hr
          exact ih acc r hacc hr
        · rw [if_neg hmem] at hr
          refine ih (acc ++ [name]) r ?_ hr
          simp [List.nodup_append, hacc, hmem]

/-- The feed-derived candidate list never contains a name twice. -/
theorem rss_nodup (feed : Except Unit (List RssItem)) :
    (get_recent_packages_from_rss feed).Nodup := by
  unfold get_recent_packages_from_rss
  cases feed with
  | error e => exact List.nodup_nil
  | ok items =>
    dsimp only
    cases hc : collectNames items [] with
    | error e => exact List.nodup_nil
    | ok packages =>
      exact List.Nodup.sublist (List.take_sublist 100 packages)
        (collectNames_nodup items [] packages List.nodup_nil hc)

/-- The collection loop, on a feed whose present titles all tokenize,
appends exactly the first-occurrence deduplication of the first tokens not
already collected. -/
theorem collectNames_ok (items : List RssItem)
    (h : ∀ it ∈ items, titleHasToken it = true) :
    ∀ acc, collectNames items acc =
      Except.ok (acc ++ (dedupKeepFirst (firstTokens items)).filter
        (fun x => decide (x ∉ acc))) := by
  induction items with
  | nil =>
    intro acc
    simp [collectNames, firstTokens, dedupKeepFirst]
  | cons it rest ih =>
    intro acc
    have hit := h it (List.mem_cons_self it rest)
    have hrest : ∀ it2 ∈ rest, titleHasToken it2 = true :=
      fun it2 h2 => h it2 (List.mem_cons_of_mem it h2)
    unfold collectNames
    cases htitle : it.title with
    | none =>
      have hft : firstTokens (it :: rest) = firstTokens rest := by
        simp [firstTokens, List.filterMap_cons, htitle]
      rw [hft]
      exact ih hrest acc
    | some t =>
      have htok : pySplit t ≠ [] := titleHasToken_some hit htitle
      dsimp only
      cases hsplit : pySplit t with
      | nil => exact absurd hsplit htok
      | cons name tks =>
        dsimp only
        have hft : firstTokens (it :: rest) = name :: firstTokens rest := by
          simp [firstTokens, List.filterMap_cons, htitle, hsplit]
        rw [hft]
        by_cases hmem : name ∈ acc
        · rw [if_pos hmem, ih hrest acc]
          have key : (dedupKeepFirst (name :: firstTokens rest)).filter
              (fun x => decide (x ∉ acc)) =
              (dedupKeepFirst (firstTokens rest)).filter
                (fun x => decide (x ∉ acc)) := by
            rw [dedupKeepFirst]
            rw [List.filter_cons_of_neg (by simp [hmem])]
            rw [List.filter_filter]
            have hfun : (fun a => decide (a ∉ acc) && decide (a ≠ name)) =
                (fun a : String => decide (a ∉ acc)) := by
              funext x
              by_cases hx : x ∈ acc
              · simp [hx]
              · have hxn : x ≠ name := fun he => hx (he ▸ hmem)
                simp [hx, hxn]
            rw [hfun]
          rw [key]
        · rw [if_neg hmem, ih hrest (acc ++ [name])]
          have key : (dedupKeepFirst (name :: firstTokens rest)).filter
              (fun x => decide (x ∉ acc)) =
              name :: (dedupKeepFirst (firstTokens rest)).filter
                (fun x => decide (x ∉ acc ++ [name])) := by
            rw [dedupKeepFirst]
            rw [List.filter_cons_of_pos (by simp [hmem])]
            rw [List.filter_filter]
            have hfun : (fun a => decide (a ∉ acc ++ [name])) =
                (fun a : String => decide (a ≠ name) && decide (a ∉ acc)) := by
              funext x
              by_cases h1 : x = name
              · simp [h1, List.mem_append]
              · by_cases h2 : x ∈ acc
                · simp [h1, h2, List.mem_append]
                · simp [h1, h2, List.mem_append]
            rw [hfun]
            have hcomm : (fun a => decide (a ∉ acc) && decide (a ≠ name)) =
                (fun a : String => decide (a ≠ name) && decide (a ∉ acc)) := by
              funext x
              exact Bool.and_comm _ _
            rw [hcomm]
          rw [key]
          rw [List.append_assoc]
          rfl

/-- C7: with a fetched feed whose item titles all tokenize, the candidate
source returns the first tokens of the titles, deduplicated keeping the
first occurrence in item order and truncated to at most 100 names; any fetch
or parse failure yields the empty list. -/
theorem rss_first_tokens (items : List RssItem)
    (h : ∀ it ∈ items, titleHasToken it = true) :
    get_recent_packages_from_rss (Except.ok items) =
      (dedupKeepFirst (firstTokens items)).take 100
    ∧ get_recent_packages_from_rss (Except.error ()) = [] := by
  constructor
  · unfold get_recent_packages_from_rss
    dsimp only
    rw [collectNames_ok items h []]
    dsimp only
    rw [List.nil_append]
    have hfun : (fun x : String => decide (x ∉ ([] : List String))) =
        (fun _ : String => true) := by
      funext x
      simp
    rw [hfun, List.filter_true]
  · rfl

/-- Witness for C7: on the spec's worked example feed the candidate list is
exactly the first-occurrence names. -/
theorem rss_first_tokens_witness :
    get_recent_packages_from_rss (Except.ok rssExampleItems) = ["foo", "bar"] :=
  ((rss_first_tokens rssExampleItems (by decide)).1).trans (by decide)

/-- The collection loop raises `IndexError` as soon as any item has a
present but tokenless title, whatever has been collected so far. -/
theorem collectNames_error (items : List RssItem)
    (h : ∃ it ∈ items, titleHasToken it = false) :
    ∀ acc, collectNames items acc = Except.error Exc.indexError := by
  induction items with
  | nil => simp at h
  | cons it rest ih =>
    intro acc
    unfold collectNames
    obtain ⟨bad, hbad, hfb⟩ := h
    rcases List.mem_cons.mp hbad with rfl | hbadrest
    · obtain ⟨t, ht, hsplit⟩ := titleHasToken_false hfb
      rw [ht]
      dsimp only
      rw [hsplit]
    · cases htitle : it.title with
      | none =>
        exact ih ⟨bad, hbadrest, hfb⟩ acc
      | some t =>
        dsimp only
        cases hsplit : pySplit t with
        | nil => rfl
        | cons name tks =>
          dsimp only
          by_cases hmem : name ∈ acc
          · rw [if_pos hmem]
            exact ih ⟨bad, hbadrest, hfb⟩ acc
          · rw [if_neg hmem]
            exact ih ⟨bad, hbadrest, hfb⟩ (acc ++ [name])

/-- C10: if any fetched feed item has a present title whose text yields no
whitespace-delimited tokens, the raised `IndexError` aborts collection and
the candidate source returns the empty list, discarding the names already
extracted from earlier items. -/
theorem rss_empty_title_discards_all (items : List RssItem)
    (h : ∃ it ∈ items, titleHasToken it = false) :
    get_recent_packages_from_rss (Except.ok items) = [] := by
  unfold get_recent_packages_from_rss
  dsimp only
  rw [collectNames_error items h []]

/-- Witness for C10: the feed collecting `foo` first and then hitting a
whitespace-only title returns the empty list. -/
theorem rss_empty_title_discards_all_witness :
    get_recent_packages_from_rss (Except.ok rssBadItems) = [] :=
  rss_empty_title_discards_all rssBadItems (by decide)

/-- Counterexample to C3 as stated: on the two-candidate list where the
first candidate's metadata fetch fails, the run finishes with no sleep event
at all — in particular none between the first candidate (whose outcome was
"metadata absent") and the second. -/
theorem pacing_skipped_on_continue :
    crawl_and_download errFetch errNet (Except.error ()) (some ["a", "b"]) [] =
      Except.ok (CrawlOutcome.finished 0 []
        [Event.progress "a", Event.progress "b"]) ∧
    Event.sleep ∉ [Event.progress "a", Event.progress "b"] := by
  exact ⟨rfl, by decide⟩

/-- C3 amended: the pacing pause runs only after candidates that reach the
download step (metadata present and filter passed), there regardless of the
download's success or failure; candidates skipped for absent metadata or
filter rejection are followed immediately by the next candidate, with no
pause. The whole trace is the concatenation of these per-candidate blocks. -/
theorem pacing_follows_download_attempts
    (fetch : String → Except Unit PackageInfo)
    (net : String → Except Unit String) (rssFeed : Except Unit (List RssItem))
    (pl : List String) (fs : List (String × String)) (h : pl ≠ []) :
    (∃ n fs2, crawl_and_download fetch net rssFeed (some pl) fs =
      Except.ok (CrawlOutcome.finished n fs2 (eventsFor fetch pl)))
    ∧ (∀ name info, get_package_info fetch name = some info →
        is_updated_since_july_2025 info = true →
        candidateEvents fetch name =
          [Event.progress name, Event.downloadAttempt name, Event.sleep])
    ∧ (∀ name, get_package_info fetch name = none →
        candidateEvents fetch name = [Event.progress name])
    ∧ (∀ name info, get_package_info fetch name = some info →
        is_updated_since_july_2025 info = false →
        candidateEvents fetch name = [Event.progress name]) := by
  refine ⟨⟨_, _, crawl_eq_finished fetch net rssFeed pl fs h⟩, ?_, ?_, ?_⟩
  · intro name info hf hu
    unfold candidateEvents
    rw [hf]
    dsimp only
    rw [hu]
    simp
  · intro name hf
    unfold candidateEvents
    rw [hf]
  · intro name info hf hu
    unfold candidateEvents
    rw [hf]
    dsimp only
    rw [hu]
    simp

/-- Witness for the amended C3: a concrete one-candidate run on which the
metadata fetch succeeds and the filter accepts, finishing with the
per-candidate trace (which ends in the pacing sleep). -/
theorem pacing_follows_download_attempts_witness :
    ∃ n fs2, crawl_and_download okFetch okNet (Except.error ())
        (some ["demo"]) [] =
      Except.ok (CrawlOutcome.finished n fs2 (eventsFor okFetch ["demo"])) :=
  (pacing_follows_download_attempts okFetch okNet (Except.error ()) ["demo"]
    [] (by decide)).1

/-- C4: no exception raised while processing a candidate propagates out of
`crawl_and_download` — the run always returns normally, and on a non-empty
explicit candidate list it completes with a summary count. -/
theorem crawl_never_propagates (fetch : String → Except Unit PackageInfo)
    (net : String → Except Unit String) (rssFeed : Except Unit (List RssItem))
    (package_list : Option (List String)) (fs : List (String × String)) :
    ∃ outcome,
      crawl_and_download fetch net rssFeed package_list fs =
        Except.ok outcome ∧
      (∀ pl, package_list = some pl → pl ≠ [] →
        ∃ n fs2 tr, outcome = CrawlOutcome.finished n fs2 tr) := by
  unfold crawl_and_download
  dsimp only
  cases hpl : (match package_list with
      | none => get_recent_packages_from_rss rssFeed
      | some l => l) with
  | nil =>
    refine ⟨CrawlOutcome.emptyList, rfl, ?_⟩
    intro pl hsome hne
    rw [hsome] at hpl
    exact absurd hpl hne
  | cons n rest =>
    dsimp only
    rw [crawlLoop_eq]
    exact ⟨_, rfl, fun pl hsome hne => ⟨_, _, _, rfl⟩⟩

/-- Witness for C4: a concrete run over one candidate whose fetch fails
returns normally and reports a (zero-success) summary. -/
theorem crawl_never_propagates_witness :
    ∃ outcome,
      crawl_and_download errFetch errNet (Except.error ()) (some ["a"]) [] =
        Except.ok outcome ∧
      ∃ n fs2 tr, outcome = CrawlOutcome.finished n fs2 tr := by
  obtain ⟨outcome, hok, hfin⟩ :=
    crawl_never_propagates errFetch errNet (Except.error ()) (some ["a"]) []
  exact ⟨outcome, hok, hfin ["a"] rfl (by decide)⟩

/-- Counterexample to C8 as stated: the explicitly supplied list
`["a", "a"]` is processed once per occurrence, so the same package name is
processed twice within one run. -/
theorem duplicate_candidate_processed_twice :
    crawl_and_download errFetch errNet (Except.error ()) (some ["a", "a"]) [] =
      Except.ok (CrawlOutcome.finished 0 []
        [Event.progress "a", Event.progress "a"]) ∧
    processedNames [Event.progress "a", Event.progress "a"] = ["a", "a"] ∧
    ¬ (["a", "a"] : List String).Nodup := by
  exact ⟨rfl, rfl, by decide⟩

/-- C8 amended: the orchestrator processes the candidate list strictly in
input order, attempting each entry exactly once — so a name is processed
once per occurrence; a feed-derived candidate list never contains a name
twice, so feed-driven runs process no name twice, but an explicitly supplied
list may repeat a name and is then processed once per occurrence. -/
theorem crawl_processes_in_input_order
    (fetch : String → Except Unit PackageInfo)
    (net : String → Except Unit String) (rssFeed : Except Unit (List RssItem))
    (pl : List String) (fs : List (String × String)) (h : pl ≠ []) :
    (∃ n fs2, crawl_and_download fetch net rssFeed (some pl) fs =
      Except.ok (CrawlOutcome.finished n fs2 (eventsFor fetch pl)) ∧
      processedNames (eventsFor fetch pl) = pl)
    ∧ ∀ feed, (get_recent_packages_from_rss feed).Nodup := by
  constructor
  · exact ⟨_, _, crawl_eq_finished fetch net rssFeed pl fs h,
      processedNames_eventsFor fetch pl⟩
  · exact rss_nodup

/-- Witness for the amended C8: a concrete two-candidate run whose trace
lists the candidates in input order. -/
theorem crawl_processes_in_input_order_witness :
    ∃ n fs2, crawl_and_download errFetch errNet (Except.error ())
        (some ["a", "b"]) [] =
      Except.ok (CrawlOutcome.finished n fs2 (eventsFor errFetch ["a", "b"])) ∧
      processedNames (eventsFor errFetch ["a", "b"]) = ["a", "b"] :=
  (crawl_processes_in_input_order errFetch errNet (Except.error ())
    ["a", "b"] [] (by decide)).1

end PyPICrawler
